import Mathlib

/-!
Verification of the ACP adapter-protocol client and local terminal subsystem
(`src/tools/boss/engine/src/acp.rs`) against its specification.

The development shallowly embeds the relevant Rust functions: `serde_json`
values become an inductive `Json` type, stateful components become explicit
state-passing functions, and the async terminal output pump becomes a step
function folded over the sequence of chunks it reads.
-/

set_option maxHeartbeats 1000000

namespace Acp

/-- Model of `serde_json::Value`.  Objects are association lists; `serde_json`
maps have unique keys, and lookup returns the first binding. -/
inductive Json where
  | null : Json
  | bool (b : Bool) : Json
  | num (n : Int) : Json
  | str (s : String) : Json
  | arr (xs : List Json) : Json
  | obj (fields : List (String × Json)) : Json
  deriving Repr

/-- `Value::get(key)`: field lookup on objects, `None` on anything else. -/
def Json.get : Json → String → Option Json
  | .obj fields, key => fields.lookup key
  | _, _ => none

/-- `Value::as_str`. -/
def Json.as_str : Json → Option String
  | .str s => some s
  | _ => none

/-- `Value::as_array`. -/
def Json.as_arr : Json → Option (List Json)
  | .arr xs => some xs
  | _ => none

/-- `Value::as_u64` (models only integer JSON numbers, as the client emits). -/
def Json.as_u64 : Json → Option Nat
  | .num n => if 0 ≤ n ∧ n < 2 ^ 64 then some n.toNat else none
  | _ => none

/-! ## Reader message classification (`read_loop`, acp.rs lines 302-341) -/

/-- The four routes a parsed JSON-RPC line can take in `read_loop`. -/
inductive MessageRoute where
  | reverseRequest : MessageRoute
  | notification : MessageRoute
  | response : MessageRoute
  | ignored : MessageRoute
  deriving DecidableEq, Repr

/-- `message.get("method").and_then(Value::as_str).is_some()` in `read_loop`. -/
def has_method (message : Json) : Bool :=
  ((message.get "method").bind Json.as_str).isSome

/-- `message.get("id").is_some()` in `read_loop`. -/
def has_id (message : Json) : Bool :=
  (message.get "id").isSome

/-- The classification cascade of `read_loop`: both `method` and `id` present
is a reverse request handed to the dispatcher; `method` without `id` is a
notification; `id` without `method` is a response resolved against the pending
table; anything else is ignored. -/
def classify (message : Json) : MessageRoute :=
  if has_method message && has_id message then .reverseRequest
  else if has_method message && !has_id message then .notification
  else if !has_method message && has_id message then .response
  else .ignored

/-! ## Events (`AcpEvent`, acp.rs lines 21-55) -/

/-- The event variants broadcast by the client. -/
inductive AcpEvent where
  | agentMessageChunk (session_id : String) (text : String) : AcpEvent
  | toolCall (session_id : String) (tool_call_id : Option String)
      (title : String) (status : Option String) : AcpEvent
  | toolCallUpdate (session_id : String) (tool_call_id : Option String)
      (title : Option String) (status : Option String) : AcpEvent
  | permissionRequest (session_id : String) (permission_id : String)
      (title : String) : AcpEvent
  deriving Repr, DecidableEq

/-- `AcpEvent::session_id`. -/
def AcpEvent.session_id : AcpEvent → String
  | .agentMessageChunk sid _ => sid
  | .toolCall sid _ _ _ => sid
  | .toolCallUpdate sid _ _ _ => sid
  | .permissionRequest sid _ _ => sid

/-! ## Notification handling (`handle_incoming_notification`, lines 344-426)

The function returns the event sent on the broadcast channel, or `none` when
the notification is silently dropped. -/

def handle_incoming_notification (message : Json) : Option AcpEvent :=
  match (message.get "method").bind Json.as_str with
  | none => none
  | some method =>
    if method ≠ "session/update" then none
    else match message.get "params" with
      | none => none
      | some params =>
        match (params.get "sessionId").bind Json.as_str with
        | none => none
        | some session_id =>
          match params.get "update" with
          | none => none
          | some update =>
            match (update.get "sessionUpdate").bind Json.as_str with
            | none => none
            | some update_type =>
              if update_type = "agent_message_chunk" then
                match ((update.get "content").bind (Json.get · "text")).bind Json.as_str with
                | some text => some (.agentMessageChunk session_id text)
                | none => none
              else if update_type = "tool_call" then
                some (.toolCall session_id
                  ((update.get "toolCallId").bind Json.as_str)
                  (((update.get "title").bind Json.as_str).getD "tool call")
                  ((update.get "status").bind Json.as_str))
              else if update_type = "tool_call_update" then
                some (.toolCallUpdate session_id
                  ((update.get "toolCallId").bind Json.as_str)
                  ((update.get "title").bind Json.as_str)
                  ((update.get "status").bind Json.as_str))
              else none

/-! ## Permission requests (`ClientHost::request_permission`, lines 640-744) -/

/-- `{"outcome": {"outcome": "cancelled"}}`. -/
def cancelled_reply : Json := .obj [("outcome", .obj [("outcome", .str "cancelled")])]

/-- `{"outcome": {"outcome": "selected", "optionId": oid}}`. -/
def selected_reply (option_id : String) : Json :=
  .obj [("outcome", .obj [("outcome", .str "selected"), ("optionId", .str option_id)])]

/-- The `find_map` over options selecting the first option whose `kind` is
`allow_once`/`allow_always` and yields a string `optionId` (lines 662-674). -/
def find_allow_option (options : List Json) : Option String :=
  options.findSome? fun option =>
    ((option.get "kind").bind Json.as_str).bind fun kind =>
      if kind = "allow_once" ∨ kind = "allow_always" then
        (option.get "optionId").bind Json.as_str
      else none

/-- The `find_map` selecting the first `reject_once` option (lines 676-688). -/
def find_reject_option (options : List Json) : Option String :=
  options.findSome? fun option =>
    ((option.get "kind").bind Json.as_str).bind fun kind =>
      if kind = "reject_once" then (option.get "optionId").bind Json.as_str
      else none

/-- `options.first().and_then(|o| o.get("optionId").and_then(as_str))`. -/
def first_option_id (options : List Json) : Option String :=
  options.head?.bind fun option => (option.get "optionId").bind Json.as_str

/-- Outcome of awaiting the permission ticket under
`tokio::time::timeout(Duration::from_secs(600), rx)` (lines 716-720):
the ticket was resolved with a value, the sender was dropped, or the
600-second deadline elapsed. -/
inductive Resolution where
  | resolved (granted : Bool) : Resolution
  | dropped : Resolution
  | timeout : Resolution
  deriving Repr, DecidableEq

/-- The `match` mapping the awaited outcome to `granted` (lines 716-720):
`Ok(Ok(value)) => value`, `Ok(Err(_)) => false`, `Err(_) => false`. -/
def resolution_granted : Resolution → Bool
  | .resolved g => g
  | .dropped => false
  | .timeout => false

/-- The timeout used for interactive permission requests, in seconds. -/
def permission_timeout_secs : Nat := 600

/-- `ClientHost::request_permission`, with the await of the permission ticket
abstracted to the `Resolution` it produced.  The reply value is modelled;
the broadcast of `PermissionRequest` and ticket registration are covered by
the `PermissionCoordinator` model below. -/
def request_permission (interactive_permissions : Bool) (params : Json)
    (resolution : Resolution) : Json :=
  match (params.get "options").bind Json.as_arr with
  | none => cancelled_reply
  | some options =>
    let allow_option := find_allow_option options
    let reject_option := find_reject_option options
    if !interactive_permissions then
      match allow_option.orElse (fun _ => first_option_id options) with
      | some option_id => selected_reply option_id
      | none => cancelled_reply
    else
      let granted := resolution_granted resolution
      let selected := if granted then allow_option else reject_option
      match selected.orElse (fun _ => if granted then first_option_id options else none) with
      | some option_id => selected_reply option_id
      | none => cancelled_reply

/-! ## Permission coordinator (lines 515-548) and `respond_permission` (254-265) -/

/-- The coordinator's state: the id counter and the set of pending ticket
ids.  The `HashMap<String, oneshot::Sender<bool>>` is modelled by its key
set; the value delivered on resolution is reported by `resolve`. -/
structure PermissionCoordinator where
  next_id : Nat
  pending : List String
  deriving Repr

/-- The empty coordinator (`Default`). -/
def PermissionCoordinator.default : PermissionCoordinator :=
  { next_id := 0, pending := [] }

/-- `PermissionCoordinator::register`: `fetch_add` the counter, form
`perm-<old+1>`, insert the ticket.  `HashMap::insert` keeps keys unique, so
an id already present is not duplicated. -/
def PermissionCoordinator.register (c : PermissionCoordinator) :
    String × PermissionCoordinator :=
  let request_id := "perm-" ++ toString (c.next_id + 1)
  (request_id,
    { next_id := c.next_id + 1,
      pending :=
        if request_id ∈ c.pending then c.pending else request_id :: c.pending })

/-- `PermissionCoordinator::resolve`: remove the ticket and send `granted`
through it.  Returns (applied, new state, value delivered to the ticket). -/
def PermissionCoordinator.resolve (c : PermissionCoordinator)
    (request_id : String) (granted : Bool) :
    Bool × PermissionCoordinator × Option Bool :=
  if request_id ∈ c.pending then
    (true, { c with pending := c.pending.erase request_id }, some granted)
  else
    (false, c, none)

/-- `AcpClient::respond_permission` (lines 254-265). -/
def respond_permission (c : PermissionCoordinator) (permission_id : String)
    (granted : Bool) : Except String PermissionCoordinator :=
  let result := c.resolve permission_id granted
  if result.1 then .ok result.2.1
  else .error ("unknown permission request id: " ++ permission_id)

/-! ## Terminal manager lookup and release (lines 867-893)

The map from terminal id to live terminal is modelled as an association
list; the value attached to each id is the outcome that `TerminalProcess::kill`
would produce for that terminal (`Ok(())` in normal operation). -/

/-- `TerminalManager::get_terminal`: extract `terminalId`, then look the
terminal up, failing with `terminal not found: <id>` when absent. -/
def get_terminal (terminals : List (String × Except String Unit))
    (params : Json) : Except String (Except String Unit) :=
  match (params.get "terminalId").bind Json.as_str with
  | none => .error "terminalId missing from terminal request"
  | some terminal_id =>
    match terminals.lookup terminal_id with
    | some t => .ok t
    | none => .error ("terminal not found: " ++ terminal_id)

/-- `TerminalManager::release`: extract `terminalId`, remove the entry from
the map whether or not it is present, kill the removed terminal if there was
one (propagating a kill failure), and reply `{}`. -/
def release (terminals : List (String × Except String Unit))
    (params : Json) :
    Except String (Json × List (String × Except String Unit)) :=
  match (params.get "terminalId").bind Json.as_str with
  | none => .error "terminalId missing from terminal request"
  | some terminal_id =>
    let remaining := terminals.eraseP (fun entry => entry.1 == terminal_id)
    match terminals.lookup terminal_id with
    | some kill_result =>
      match kill_result with
      | .ok _ => .ok (.obj [], remaining)
      | .error e => .error e
    | none => .ok (.obj [], remaining)

/-! ## `normalize_terminal_command` (lines 895-926)

`shlex::split` is an external crate; the function is parameterized over it. -/

/-- Is `token` a contiguous infix of `l`?  (`str::contains` for the ASCII
operator tokens; for ASCII needles byte-level and character-level substring
search agree.) -/
def hasInfix (token : List Char) : List Char → Bool
  | [] => token.isEmpty
  | c :: rest => token.isPrefixOf (c :: rest) || hasInfix token rest

/-- The `SHELL_TOKENS` array of `command_uses_shell_operators`. -/
def SHELL_TOKENS : List (List Char) :=
  [['&', '&'], ['|', '|'], ['|'], [';'], ['$', '('], [Char.ofNat 96], ['>'], ['<']]

/-- `command_uses_shell_operators` (lines 923-926). -/
def command_uses_shell_operators (command : String) : Bool :=
  SHELL_TOKENS.any fun token => hasInfix token command.toList

/-- `normalize_terminal_command` (lines 895-921), parameterized by the
external POSIX shell-word splitter `shlex::split`. -/
def normalize_terminal_command (shlex_split : String → Option (List String))
    (raw_command : String) (request_args : Option (List String)) :
    String × List String × String :=
  match request_args with
  | some args => (raw_command, args, "structured")
  | none =>
    if command_uses_shell_operators raw_command then
      ("/bin/bash", ["-lc", raw_command], "shell")
    else
      match shlex_split raw_command with
      | some parts =>
        match parts with
        | program :: rest => (program, rest, "shlex")
        | [] => (raw_command, [], "raw")
      | none => (raw_command, [], "raw")

/-! ## `ClientHost::read_text_file` (lines 585-614) -/

/-- `usize::MAX` on a 64-bit host, the default for `limit`. -/
def USIZE_MAX : Nat := 2 ^ 64 - 1

/-- Split on `'\n'`, producing one piece more than there are separators. -/
def splitNl : List Char → List (List Char)
  | [] => [[]]
  | c :: rest =>
    if c = '\n' then [] :: splitNl rest
    else
      match splitNl rest with
      | [] => [[c]]
      | piece :: pieces => (c :: piece) :: pieces

/-- Strip one trailing `'\r'` from a piece that was terminated by `'\n'` in
the original string: together they formed a `"\r\n"` line ending. -/
def stripCR (l : List Char) : List Char :=
  if l.getLast? = some '\r' then l.dropLast else l

/-- Rust `str::lines`: split on `'\n'`; a trailing newline does not produce
a final empty line; a `'\r'` is stripped only as part of a `"\r\n"` line
ending, i.e. from pieces that were followed by a `'\n'` — a bare trailing
`'\r'` on the last line of a file not ending in `'\n'` is retained
(`"foo\r\nbar\n\nbaz\r".lines()` yields `"foo"`, `"bar"`, `""`, `"baz\r"`). -/
def rustLines (s : List Char) : List (List Char) :=
  match s with
  | [] => []
  | _ =>
    let pieces := splitNl s
    if s.getLast? = some '\n' then
      pieces.dropLast.map stripCR
    else
      pieces.dropLast.map stripCR ++ [pieces.getLastD []]

/-- The body of `read_text_file` after the file contents have been read:
whole file when both `line` and `limit` are absent, otherwise
`lines().skip(line-1).take(limit).join("\n")` with saturating arithmetic. -/
def read_text_file_content (content : String) (line : Option Nat)
    (limit : Option Nat) : String :=
  if line.isNone && limit.isNone then content
  else
    let start := line.getD 1 - 1
    let lim := limit.getD USIZE_MAX
    String.mk (List.intercalate ['\n'] (((rustLines content.toList).drop start).take lim))

/-! ## Request ids and the pending table (`AcpClient::request`, lines 232-252) -/

/-- `u64` modulus: `AtomicU64::fetch_add` wraps on overflow. -/
def U64_MOD : Nat := 2 ^ 64

/-- The client state relevant to outbound requests: the id counter and the
key set of the pending-response table. -/
structure ClientState where
  next_request_id : Nat
  pending : List Nat
  deriving Repr

/-- State installed by `connect_internal` (line 136): counter starts at 1,
no pending requests. -/
def initial_client : ClientState := { next_request_id := 1, pending := [] }

/-- `AcpClient::request`: `fetch_add` the counter (wrapping), insert a
pending slot keyed by the id.  Returns the id assigned to the request.
`HashMap::insert` keeps the key set duplicate-free. -/
def request_step (s : ClientState) : Nat × ClientState :=
  let request_id := s.next_request_id % U64_MOD
  (request_id,
    { next_request_id := (s.next_request_id + 1) % U64_MOD,
      pending :=
        if request_id ∈ s.pending then s.pending else request_id :: s.pending })

/-- `handle_incoming_response` (line 436): remove the pending entry for the
response id. -/
def response_step (s : ClientState) (id : Nat) : ClientState :=
  { s with pending := s.pending.erase id }

/-- Interleaved client operations: an outbound request, or an incoming
response carrying the given id. -/
inductive ClientOp where
  | request : ClientOp
  | response (id : Nat) : ClientOp
  deriving Repr, DecidableEq

/-- Run a sequence of operations, collecting the ids assigned to requests
in order. -/
def run_client : ClientState → List ClientOp → ClientState × List Nat
  | s, [] => (s, [])
  | s, .request :: ops =>
    let step := request_step s
    let rest := run_client step.2 ops
    (rest.1, step.1 :: rest.2)
  | s, .response id :: ops => run_client (response_step s id) ops

/-- Number of `request` operations in a trace. -/
def req_count (ops : List ClientOp) : Nat :=
  ops.countP fun op => op matches .request

/-! ## Terminal output pump (`TerminalProcess::pump_output`, lines 1003-1035)

The output buffer is a Rust `String`, i.e. a byte vector that is valid
UTF-8; it is modelled as `List Nat` of byte values.  Each loop iteration
appends the chunk produced by `String::from_utf8_lossy` (always valid
UTF-8) and, if the buffer now exceeds `output_limit`, drains the oldest
bytes up to the next code-point boundary and latches `truncated`. -/

/-- Is `b` a UTF-8 continuation byte (`0x80 ≤ b < 0xC0`)? -/
def cont_byte (b : Nat) : Bool := 0x80 ≤ b && b < 0xC0

mutual

/-- Strict UTF-8 validity of a byte sequence (what `String::from_utf8_lossy`
guarantees of its output): well-formed lead/continuation structure, no
overlong encodings, no surrogates, max scalar `0x10FFFF`.  The second-byte
range restrictions (`0xE0 → [0xA0,0xC0)`, `0xED → [0x80,0xA0)`,
`0xF0 → [0x90,0xC0)`, `0xF4 → [0x80,0x90)`) are the standard table. -/
def utf8Valid : List Nat → Bool
  | [] => true
  | b1 :: rest =>
    if b1 < 0x80 then utf8Valid rest
    else if b1 < 0xC2 then false
    else if b1 < 0xE0 then utf8Cont1 rest
    else if b1 < 0xF0 then
      utf8Cont2 (if b1 = 0xE0 then 0xA0 else 0x80)
        (if b1 = 0xED then 0xA0 else 0xC0) rest
    else if b1 < 0xF5 then
      utf8Cont3 (if b1 = 0xF0 then 0x90 else 0x80)
        (if b1 = 0xF4 then 0x90 else 0xC0) rest
    else false

/-- One continuation byte, then a valid tail. -/
def utf8Cont1 : List Nat → Bool
  | b2 :: rest => cont_byte b2 && utf8Valid rest
  | [] => false

/-- A range-restricted second byte, one continuation byte, then a valid
tail. -/
def utf8Cont2 (lo hi : Nat) : List Nat → Bool
  | b2 :: b3 :: rest => (lo ≤ b2 && b2 < hi) && cont_byte b3 && utf8Valid rest
  | [_] => false
  | [] => false

/-- A range-restricted second byte, two continuation bytes, then a valid
tail. -/
def utf8Cont3 (lo hi : Nat) : List Nat → Bool
  | b2 :: b3 :: b4 :: rest =>
    (lo ≤ b2 && b2 < hi) && cont_byte b3 && cont_byte b4 && utf8Valid rest
  | [_, _] => false
  | [_] => false
  | [] => false

end

/-- The index test shared by `str::is_char_boundary` for positive indices:
at the end of the buffer, or on a non-continuation byte. -/
def not_cont_at (l : List Nat) (i : Nat) : Bool :=
  match l.drop i with
  | [] => i == l.length
  | b :: _ => !cont_byte b

/-- `str::is_char_boundary`: index 0 is always a boundary; past-the-end is a
boundary only at exactly the length; otherwise the byte there must not be a
continuation byte. -/
def is_char_boundary (l : List Nat) (i : Nat) : Bool :=
  if i = 0 then true else not_cont_at l i

/-- The `while drain_to < locked.len() && !locked.is_char_boundary(drain_to)`
loop (lines 1022-1024). -/
def drain_to_boundary (l : List Nat) (i : Nat) : Nat :=
  if h : i < l.length ∧ is_char_boundary l i = false then
    drain_to_boundary l (i + 1)
  else i
termination_by l.length - i
decreasing_by omega

/-- The state of a terminal's shared output buffer. -/
structure PumpState where
  output : List Nat
  truncated : Bool
  deriving Repr, DecidableEq

/-- The buffer state of a fresh terminal (`TerminalProcess::new`). -/
def initial_pump : PumpState := { output := [], truncated := false }

/-- One iteration of the `pump_output` read loop, for a chunk read from the
child: append, then if over the cap drain the oldest `excess` bytes rounded
up to a code-point boundary and latch `truncated`. -/
def pump_step (output_limit : Nat) (s : PumpState) (chunk : List Nat) : PumpState :=
  let appended := s.output ++ chunk
  if output_limit < appended.length then
    let excess := appended.length - output_limit
    let dt := drain_to_boundary appended excess
    { output := appended.drop dt, truncated := true }
  else
    { output := appended, truncated := s.truncated }

/-- The pump applied to a whole sequence of chunks, from the fresh buffer. -/
def pump_run (output_limit : Nat) (chunks : List (List Nat)) : PumpState :=
  chunks.foldl (pump_step output_limit) initial_pump

/-! # Theorems -/

/-- C6: every JSON line read from the child is classified exactly as: a
response (routed to the pending table) iff it has an `id` but no string
`method`; a notification (routed to event handling) iff it has a string
`method` and no `id`; a reverse request (routed to the dispatcher) iff it
has both; anything else is ignored. -/
theorem C6_reader_classification (message : Json) :
    (classify message = .response ↔ has_id message = true ∧ has_method message = false) ∧
    (classify message = .notification ↔ has_method message = true ∧ has_id message = false) ∧
    (classify message = .reverseRequest ↔ has_method message = true ∧ has_id message = true) ∧
    (classify message = .ignored ↔ has_method message = false ∧ has_id message = false) := by
  unfold classify
  cases h1 : has_method message <;> cases h2 : has_id message <;> simp

/-- C4: `normalize_terminal_command` resolves the launch vector in the
normative order: explicit `args` give structured mode; else a shell operator
in the command gives `/bin/bash -lc` shell mode; else a nonempty shell-word
split gives shlex mode; else raw mode.  The spec's example
`"cd /tmp && ls"` resolves to shell mode.  The theorem holds for every
implementation `split` of the external POSIX word splitter. -/
theorem C4_normalize_terminal_command (split : String → Option (List String))
    (raw_command : String) (request_args : Option (List String)) :
    (∀ args, request_args = some args →
        normalize_terminal_command split raw_command request_args =
          (raw_command, args, "structured")) ∧
    (request_args = none → command_uses_shell_operators raw_command = true →
        normalize_terminal_command split raw_command request_args =
          ("/bin/bash", ["-lc", raw_command], "shell")) ∧
    (request_args = none → command_uses_shell_operators raw_command = false →
        ∀ program rest, split raw_command = some (program :: rest) →
          normalize_terminal_command split raw_command request_args =
            (program, rest, "shlex")) ∧
    (request_args = none → command_uses_shell_operators raw_command = false →
        split raw_command = some [] ∨ split raw_command = none →
          normalize_terminal_command split raw_command request_args =
            (raw_command, [], "raw")) ∧
    normalize_terminal_command split "cd /tmp && ls" none =
      ("/bin/bash", ["-lc", "cd /tmp && ls"], "shell") := by
  refine ⟨?_, ?_, ?_, ?_, ?_⟩
  · intro args h
    subst h
    rfl
  · intro h hops
    subst h
    simp [normalize_terminal_command, hops]
  · intro h hops program rest hsplit
    subst h
    simp [normalize_terminal_command, hops, hsplit]
  · intro h hops hsplit
    subst h
    rcases hsplit with hsplit | hsplit <;>
      simp [normalize_terminal_command, hops, hsplit]
  · have hops : command_uses_shell_operators "cd /tmp && ls" = true := by decide
    simp [normalize_terminal_command, hops]

/-- C4 witness: with any splitter, explicit args launch verbatim in
structured mode. -/
theorem C4_witness :
    normalize_terminal_command (fun _ => none) "javac" (some ["x.java"]) =
      ("javac", ["x.java"], "structured") :=
  (C4_normalize_terminal_command (fun _ => none) "javac" (some ["x.java"])).1
    ["x.java"] rfl

/-- C10 counterexample: a `session/update` notification that explicitly
carries the empty string as its `sessionId` is not dropped — it broadcasts a
`ToolCall` event whose session id is empty, so an empty-session broadcast
event can originate from a notification. -/
theorem C10_counterexample :
    handle_incoming_notification (Json.obj [("method", Json.str "session/update"),
        ("params", Json.obj [("sessionId", Json.str ""),
          ("update", Json.obj [("sessionUpdate", Json.str "tool_call")])])]) =
      some (AcpEvent.toolCall "" none "tool call" none) ∧
    (AcpEvent.toolCall "" none "tool call" none).session_id = "" := by
  exact ⟨rfl, rfl⟩

/-- C10 (amended): a `session/update` notification lacking a string
`sessionId`, or lacking a string `update.sessionUpdate`, or (for
`agent_message_chunk`) lacking a string `content.text`, is silently dropped
and broadcasts no event; consequently, an event produced by a notification
always takes its session id from an explicitly present string `sessionId` —
an empty session id arises from a notification only when the notification
itself carried the empty string. -/
theorem C10_notification_guards (message : Json) :
    (((message.get "params").bind (fun p => p.get "sessionId")).bind Json.as_str = none →
        handle_incoming_notification message = none) ∧
    ((((message.get "params").bind (fun p => p.get "update")).bind
        (fun u => u.get "sessionUpdate")).bind Json.as_str = none →
        handle_incoming_notification message = none) ∧
    (∀ update,
        (message.get "params").bind (fun p => p.get "update") = some update →
        (update.get "sessionUpdate").bind Json.as_str = some "agent_message_chunk" →
        ((update.get "content").bind (Json.get · "text")).bind Json.as_str = none →
        handle_incoming_notification message = none) ∧
    (∀ ev, handle_incoming_notification message = some ev →
        ((message.get "params").bind (fun p => p.get "sessionId")).bind Json.as_str =
          some ev.session_id) := by
  cases hm : (message.get "method").bind Json.as_str with
  | none => simp [handle_incoming_notification, hm]
  | some m =>
    by_cases hms : m = "session/update"
    · subst hms
      cases hp : message.get "params" with
      | none => simp [handle_incoming_notification, hm, hp]
      | some p =>
        cases hsid : (p.get "sessionId").bind Json.as_str with
        | none => simp [handle_incoming_notification, hm, hp, hsid]
        | some sid =>
          cases hup : p.get "update" with
          | none => simp [handle_incoming_notification, hm, hp, hsid, hup]
          | some u =>
            cases hsu : (u.get "sessionUpdate").bind Json.as_str with
            | none => simp [handle_incoming_notification, hm, hp, hsid, hup, hsu]
            | some ut =>
              by_cases h1 : ut = "agent_message_chunk"
              · subst h1
                cases htx : ((u.get "content").bind (Json.get · "text")).bind Json.as_str with
                | none => simp [handle_incoming_notification, hm, hp, hsid, hup, hsu, htx]
                | some tx =>
                  have heval : handle_incoming_notification message =
                      some (.agentMessageChunk sid tx) := by
                    simp [handle_incoming_notification, hm, hp, hsid, hup, hsu, htx]
                  refine ⟨?_, ?_, ?_, ?_⟩
                  · intro h
                    simp [hsid] at h
                  · intro h
                    simp [hup, hsu] at h
                  · intro update hu hsu2 htx2
                    simp only [Option.some_bind, hup] at hu
                    cases hu
                    rw [htx] at htx2
                    cases htx2
                  · intro ev hev
                    rw [heval] at hev
                    cases hev
                    simp [hsid, AcpEvent.session_id]
              · by_cases h2 : ut = "tool_call"
                · subst h2
                  have heval : handle_incoming_notification message =
                      some (.toolCall sid ((u.get "toolCallId").bind Json.as_str)
                        (((u.get "title").bind Json.as_str).getD "tool call")
                        ((u.get "status").bind Json.as_str)) := by
                    simp [handle_incoming_notification, hm, hp, hsid, hup, hsu]
                  refine ⟨?_, ?_, ?_, ?_⟩
                  · intro h
                    simp [hsid] at h
                  · intro h
                    simp [hup, hsu] at h
                  · intro update hu hsu2 _
                    simp only [Option.some_bind, hup] at hu
                    cases hu
                    rw [hsu] at hsu2
                    simp at hsu2
                  · intro ev hev
                    rw [heval] at hev
                    cases hev
                    simp [hsid, AcpEvent.session_id]
                · by_cases h3 : ut = "tool_call_update"
                  · subst h3
                    have heval : handle_incoming_notification message =
                        some (.toolCallUpdate sid ((u.get "toolCallId").bind Json.as_str)
                          ((u.get "title").bind Json.as_str)
                          ((u.get "status").bind Json.as_str)) := by
                      simp [handle_incoming_notification, hm, hp, hsid, hup, hsu, h1]
                    refine ⟨?_, ?_, ?_, ?_⟩
                    · intro h
                      simp [hsid] at h
                    · intro h
                      simp [hup, hsu] at h
                    · intro update hu hsu2 _
                      simp only [Option.some_bind, hup] at hu
                      cases hu
                      rw [hsu] at hsu2
                      simp at hsu2
                    · intro ev hev
                      rw [heval] at hev
                      cases hev
                      simp [hsid, AcpEvent.session_id]
                  · have heval : handle_incoming_notification message = none := by
                      simp [handle_incoming_notification, hm, hp, hsid, hup, hsu, h1, h2, h3]
                    simp [heval]
    · have : handle_incoming_notification message = none := by
        simp [handle_incoming_notification, hm, hms]
      simp [this]

/-- C10 witness: a `session/update` notification whose params carry no
`sessionId` is dropped. -/
theorem C10_witness :
    handle_incoming_notification (Json.obj [("method", Json.str "session/update"),
      ("params", Json.obj [])]) = none :=
  (C10_notification_guards (Json.obj [("method", Json.str "session/update"),
    ("params", Json.obj [])])).1 rfl

/-! ### Permission-option helpers for the claims about `request_permission` -/

/-- Spec-side predicate: the option's `kind` is `allow_once` or `allow_always`. -/
def is_allow_kind (option : Json) : Bool :=
  match (option.get "kind").bind Json.as_str with
  | some kind => kind == "allow_once" || kind == "allow_always"
  | none => false

/-- Spec-side predicate: the option's `kind` is `reject_once`. -/
def is_reject_kind (option : Json) : Bool :=
  match (option.get "kind").bind Json.as_str with
  | some kind => kind == "reject_once"
  | none => false

/-- The option's string `optionId`, when it has one. -/
def option_id_of (option : Json) : Option String :=
  (option.get "optionId").bind Json.as_str

lemma find_allow_option_eq (options : List Json)
    (hwf : ∀ o ∈ options, (option_id_of o).isSome = true) :
    find_allow_option options = (options.find? is_allow_kind).bind option_id_of := by
  induction options with
  | nil => rfl
  | cons o rest ih =>
    have ho := hwf o (by simp)
    have hrest : ∀ o ∈ rest, (option_id_of o).isSome = true := fun o ho =>
      hwf o (by simp [ho])
    rw [find_allow_option, List.findSome?_cons]
    cases hk : (o.get "kind").bind Json.as_str with
    | none =>
      have hak : is_allow_kind o = false := by simp [is_allow_kind, hk]
      simp only [hk, Option.none_bind]
      rw [List.find?_cons_of_neg _ (by simp [hak])]
      exact ih hrest
    | some kind =>
      by_cases hkind : kind = "allow_once" ∨ kind = "allow_always"
      · have hak : is_allow_kind o = true := by
          simp [is_allow_kind, hk]
          rcases hkind with h | h <;> simp [h]
        simp only [hk, Option.some_bind, if_pos hkind]
        rw [List.find?_cons_of_pos _ hak]
        cases hid : option_id_of o with
        | none => rw [hid] at ho; cases ho
        | some oid => simp [option_id_of] at hid; simp [hid, option_id_of]
      · have hak : is_allow_kind o = false := by
          push_neg at hkind
          simp [is_allow_kind, hk, hkind.1, hkind.2]
        simp only [hk, Option.some_bind, if_neg hkind]
        rw [List.find?_cons_of_neg _ (by simp [hak])]
        exact ih hrest

lemma find_reject_option_eq (options : List Json)
    (hwf : ∀ o ∈ options, (option_id_of o).isSome = true) :
    find_reject_option options = (options.find? is_reject_kind).bind option_id_of := by
  induction options with
  | nil => rfl
  | cons o rest ih =>
    have ho := hwf o (by simp)
    have hrest : ∀ o ∈ rest, (option_id_of o).isSome = true := fun o ho =>
      hwf o (by simp [ho])
    rw [find_reject_option, List.findSome?_cons]
    cases hk : (o.get "kind").bind Json.as_str with
    | none =>
      have hak : is_reject_kind o = false := by simp [is_reject_kind, hk]
      simp only [hk, Option.none_bind]
      rw [List.find?_cons_of_neg _ (by simp [hak])]
      exact ih hrest
    | some kind =>
      by_cases hkind : kind = "reject_once"
      · have hak : is_reject_kind o = true := by simp [is_reject_kind, hk, hkind]
        simp only [hk, Option.some_bind, if_pos hkind]
        rw [List.find?_cons_of_pos _ hak]
        cases hid : option_id_of o with
        | none => rw [hid] at ho; cases ho
        | some oid => simp [option_id_of] at hid; simp [hid, option_id_of]
      · have hak : is_reject_kind o = false := by simp [is_reject_kind, hk, hkind]
        simp only [hk, Option.some_bind, if_neg hkind]
        rw [List.find?_cons_of_neg _ (by simp [hak])]
        exact ih hrest

lemma first_option_id_eq (options : List Json) :
    first_option_id options = options.head?.bind option_id_of := rfl

/-- C3: with interactive permissions off, the reply selects the first
`allow_once`/`allow_always` option's id; with no such option it falls back to
the first option's id; an empty options list yields `cancelled`. -/
theorem C3_noninteractive_permission (params : Json) (options : List Json)
    (r : Resolution)
    (hopts : params.get "options" = some (.arr options))
    (hwf : ∀ o ∈ options, (option_id_of o).isSome = true) :
    (options = [] → request_permission false params r = cancelled_reply) ∧
    (∀ o oid, options.find? is_allow_kind = some o → option_id_of o = some oid →
        request_permission false params r = selected_reply oid) ∧
    (options.find? is_allow_kind = none →
        ∀ o0 oid, options.head? = some o0 → option_id_of o0 = some oid →
          request_permission false params r = selected_reply oid) := by
  have hbase : (params.get "options").bind Json.as_arr = some options := by
    simp [hopts, Json.as_arr]
  refine ⟨?_, ?_, ?_⟩
  · intro h
    subst h
    simp [request_permission, hbase, find_allow_option, first_option_id,
      Option.orElse, cancelled_reply]
  · intro o oid hfind hid
    have := find_allow_option_eq options hwf
    rw [hfind] at this
    simp only [Option.some_bind, hid] at this
    simp [request_permission, hbase, this, Option.orElse]
  · intro hfind o0 oid hhead hid
    have hnone := find_allow_option_eq options hwf
    rw [hfind] at hnone
    simp only [Option.none_bind] at hnone
    have hfirst : first_option_id options = some oid := by
      rw [first_option_id_eq, hhead, Option.some_bind, hid]
    simp [request_permission, hbase, hnone, hfirst, Option.orElse]

/-- C3 witness: with interactive off and options
`[{optionId:"x", kind:"reject_once"}]` the reply selects `"x"`. -/
theorem C3_witness :
    request_permission false
      (Json.obj [("options", Json.arr [Json.obj
        [("optionId", Json.str "x"), ("kind", Json.str "reject_once")]])])
      Resolution.timeout = selected_reply "x" :=
  (C3_noninteractive_permission
      (Json.obj [("options", Json.arr [Json.obj
        [("optionId", Json.str "x"), ("kind", Json.str "reject_once")]])])
      [Json.obj [("optionId", Json.str "x"), ("kind", Json.str "reject_once")]]
      Resolution.timeout rfl (by decide)).2.2 rfl
      (Json.obj [("optionId", Json.str "x"), ("kind", Json.str "reject_once")]) "x" rfl rfl

/-- C2: with interactive permissions on, the reply is determined by the
ticket resolution.  `granted = true` selects the first
`allow_once`/`allow_always` option (falling back to the first option);
`granted = false` — which is what a dropped ticket or the elapse of the
600-second timeout produce — selects the first `reject_once` option, and
with no `reject_once` option the outcome is `cancelled`. -/
theorem C2_interactive_permission (params : Json) (options : List Json)
    (r : Resolution)
    (hopts : params.get "options" = some (.arr options))
    (hwf : ∀ o ∈ options, (option_id_of o).isSome = true) :
    (resolution_granted .dropped = false ∧ resolution_granted .timeout = false ∧
      permission_timeout_secs = 600) ∧
    (resolution_granted r = true →
      (∀ o oid, options.find? is_allow_kind = some o → option_id_of o = some oid →
          request_permission true params r = selected_reply oid) ∧
      (options.find? is_allow_kind = none →
          ∀ o0 oid, options.head? = some o0 → option_id_of o0 = some oid →
            request_permission true params r = selected_reply oid) ∧
      (options = [] → request_permission true params r = cancelled_reply)) ∧
    (resolution_granted r = false →
      (∀ o oid, options.find? is_reject_kind = some o → option_id_of o = some oid →
          request_permission true params r = selected_reply oid) ∧
      (options.find? is_reject_kind = none →
          request_permission true params r = cancelled_reply)) := by
  have hbase : (params.get "options").bind Json.as_arr = some options := by
    simp [hopts, Json.as_arr]
  refine ⟨⟨rfl, rfl, rfl⟩, ?_, ?_⟩
  · intro hg
    refine ⟨?_, ?_, ?_⟩
    · intro o oid hfind hid
      have := find_allow_option_eq options hwf
      rw [hfind] at this
      simp only [Option.some_bind, hid] at this
      simp [request_permission, hbase, hg, this, Option.orElse]
    · intro hfind o0 oid hhead hid
      have hnone := find_allow_option_eq options hwf
      rw [hfind] at hnone
      simp only [Option.none_bind] at hnone
      have hfirst : first_option_id options = some oid := by
        rw [first_option_id_eq, hhead, Option.some_bind, hid]
      simp [request_permission, hbase, hg, hnone, hfirst, Option.orElse]
    · intro h
      subst h
      simp [request_permission, hbase, hg, find_allow_option, first_option_id,
        Option.orElse, cancelled_reply]
  · intro hg
    refine ⟨?_, ?_⟩
    · intro o oid hfind hid
      have := find_reject_option_eq options hwf
      rw [hfind] at this
      simp only [Option.some_bind, hid] at this
      simp [request_permission, hbase, hg, this, Option.orElse]
    · intro hfind
      have hnone := find_reject_option_eq options hwf
      rw [hfind] at hnone
      simp only [Option.none_bind] at hnone
      simp [request_permission, hbase, hg, hnone, Option.orElse]

/-- C2 witness: with options `[{optionId:"a", kind:"allow_once"},
{optionId:"r", kind:"reject_once"}]`, a timeout resolves to denial and
selects `"r"`. -/
theorem C2_witness :
    request_permission true
      (Json.obj [("options", Json.arr
        [Json.obj [("optionId", Json.str "a"), ("kind", Json.str "allow_once")],
         Json.obj [("optionId", Json.str "r"), ("kind", Json.str "reject_once")]])])
      Resolution.timeout = selected_reply "r" :=
  ((C2_interactive_permission
      (Json.obj [("options", Json.arr
        [Json.obj [("optionId", Json.str "a"), ("kind", Json.str "allow_once")],
         Json.obj [("optionId", Json.str "r"), ("kind", Json.str "reject_once")]])])
      [Json.obj [("optionId", Json.str "a"), ("kind", Json.str "allow_once")],
       Json.obj [("optionId", Json.str "r"), ("kind", Json.str "reject_once")]]
      Resolution.timeout rfl (by decide)).2.2 rfl).1
      (Json.obj [("optionId", Json.str "r"), ("kind", Json.str "reject_once")]) "r" rfl rfl

lemma register_preserves_nodup (c : PermissionCoordinator)
    (h : c.pending.Nodup) : (c.register).2.pending.Nodup := by
  unfold PermissionCoordinator.register
  dsimp only
  split
  · exact h
  · exact List.Nodup.cons (by assumption) h

lemma resolve_preserves_nodup (c : PermissionCoordinator) (pid : String)
    (g : Bool) (h : c.pending.Nodup) : (c.resolve pid g).2.1.pending.Nodup := by
  unfold PermissionCoordinator.resolve
  split
  · exact h.erase pid
  · exact h

/-- C7: `respond_permission(pid, granted)` fails with the documented error
exactly when `pid` is not pending; registration makes the fresh id pending;
for a pending id the call delivers `granted` through the ticket, removes it,
and succeeds, and a second call with the same id fails with the same error
(the `pending.Nodup` hypothesis is the key-uniqueness invariant of the
`HashMap`, preserved by `register` and `resolve`). -/
theorem C7_respond_permission (c : PermissionCoordinator) (pid : String)
    (g g2 : Bool) (hnodup : c.pending.Nodup) :
    ((c.register).1 ∈ (c.register).2.pending) ∧
    (pid ∉ c.pending →
        respond_permission c pid g =
          .error ("unknown permission request id: " ++ pid)) ∧
    (pid ∈ c.pending →
        (c.resolve pid g).2.2 = some g ∧
        ∃ c2, respond_permission c pid g = .ok c2 ∧ pid ∉ c2.pending ∧
          respond_permission c2 pid g2 =
            .error ("unknown permission request id: " ++ pid)) := by
  refine ⟨?_, ?_, ?_⟩
  · unfold PermissionCoordinator.register
    dsimp only
    split
    · assumption
    · exact List.mem_cons_self _ _
  · intro h
    simp [respond_permission, PermissionCoordinator.resolve, h]
  · intro h
    have hout : pid ∉ c.pending.erase pid := hnodup.not_mem_erase
    refine ⟨by simp [PermissionCoordinator.resolve, h], ?_⟩
    refine ⟨{ c with pending := c.pending.erase pid }, ?_, hout, ?_⟩
    · simp [respond_permission, PermissionCoordinator.resolve, h]
    · simp [respond_permission, PermissionCoordinator.resolve, hout]

/-- C7 witness: on the coordinator holding the one registered ticket
`perm-1`, responding succeeds once and the same id then fails. -/
theorem C7_witness :
    "perm-1" ∈ (PermissionCoordinator.default.register).2.pending ∧
    ((PermissionCoordinator.default.register).2.resolve "perm-1" true).2.2 =
        some true ∧
    ∃ c2, respond_permission (PermissionCoordinator.default.register).2
        "perm-1" true = .ok c2 ∧ "perm-1" ∉ c2.pending ∧
      respond_permission c2 "perm-1" false =
        .error ("unknown permission request id: " ++ "perm-1") :=
  ⟨by decide,
   (C7_respond_permission (PermissionCoordinator.default.register).2 "perm-1"
      true false (by decide)).2.2 (by decide)⟩

/-! ### Terminal map lemmas for release -/

lemma lookup_none_eraseP {α : Type} (l : List (String × α)) (k : String)
    (h : l.lookup k = none) : l.eraseP (fun entry => entry.1 == k) = l := by
  induction l with
  | nil => rfl
  | cons e rest ih =>
    rw [List.lookup_cons] at h
    by_cases hk : k = e.1
    · have hbeq : (k == e.1) = true := by simp [hk]
      simp only [hbeq] at h
      cases h
    · have hbeq : (k == e.1) = false := by simp [hk]
      simp only [hbeq] at h
      have hbeq2 : (e.1 == k) = false := by
        rw [beq_eq_false_iff_ne]
        exact Ne.symm hk
      rw [List.eraseP_cons]
      simp only [hbeq2, cond_false]
      rw [ih h]

lemma lookup_eq_none_iff {α : Type} (l : List (String × α)) (k : String) :
    l.lookup k = none ↔ k ∉ l.map Prod.fst := by
  induction l with
  | nil => simp
  | cons e rest ih =>
    rw [List.lookup_cons]
    by_cases hk : k = e.1
    · have hbeq : (k == e.1) = true := by simp [hk]
      simp [hbeq, hk]
    · have hbeq : (k == e.1) = false := by simp [hk]
      simp only [hbeq, List.map_cons, List.mem_cons]
      rw [ih]
      constructor
      · rintro h (h1 | h2)
        · exact hk h1
        · exact h h2
      · intro h h2
        exact h (Or.inr h2)

lemma lookup_eraseP_of_nodup {α : Type} (l : List (String × α)) (k : String)
    (hnd : (l.map Prod.fst).Nodup) :
    (l.eraseP (fun entry => entry.1 == k)).lookup k = none := by
  induction l with
  | nil => rfl
  | cons e rest ih =>
    rw [List.map_cons, List.nodup_cons] at hnd
    rw [List.eraseP_cons]
    by_cases hk : e.1 = k
    · have hbeq : (e.1 == k) = true := by simp [hk]
      simp only [hbeq, cond_true]
      rw [lookup_eq_none_iff, ← hk]
      exact hnd.1
    · have hbeq : (e.1 == k) = false := by
        rw [beq_eq_false_iff_ne]
        exact hk
      simp only [hbeq, cond_false]
      rw [List.lookup_cons]
      have hbeq2 : (k == e.1) = false := by
        rw [beq_eq_false_iff_ne]
        exact Ne.symm hk
      simp only [hbeq2]
      exact ih hnd.2

/-- C9: `terminal/release` with a `terminalId` absent from the terminal map
succeeds with `{}` (leaving the map unchanged), while `get_terminal` — the
lookup used by `terminal/output`, `terminal/wait_for_exit` and
`terminal/kill` — fails with `terminal not found: <id>`.  Consequently
releasing a live terminal (whose kill succeeds) twice succeeds both times:
the second call finds no entry and still returns `{}`. -/
theorem C9_release_unknown_id (terminals : List (String × Except String Unit))
    (tid : String) (params : Json)
    (hparam : (params.get "terminalId").bind Json.as_str = some tid)
    (hnd : (terminals.map Prod.fst).Nodup) :
    (terminals.lookup tid = none →
        release terminals params = .ok (Json.obj [], terminals) ∧
        get_terminal terminals params =
          .error ("terminal not found: " ++ tid)) ∧
    (terminals.lookup tid = some (.ok ()) →
        ∃ remaining, release terminals params = .ok (Json.obj [], remaining) ∧
          release remaining params = .ok (Json.obj [], remaining) ∧
          get_terminal remaining params =
            .error ("terminal not found: " ++ tid)) := by
  constructor
  · intro h
    constructor
    · rw [release, hparam]
      dsimp only
      rw [h, lookup_none_eraseP _ _ h]
    · rw [get_terminal, hparam]
      dsimp only
      rw [h]
  · intro h
    refine ⟨terminals.eraseP (fun entry => entry.1 == tid), ?_, ?_, ?_⟩
    · rw [release, hparam]
      dsimp only
      rw [h]
    · have hrem : (terminals.eraseP (fun entry => entry.1 == tid)).lookup tid
          = none := lookup_eraseP_of_nodup terminals tid hnd
      rw [release, hparam]
      dsimp only
      rw [hrem, lookup_none_eraseP _ _ hrem]
    · have hrem : (terminals.eraseP (fun entry => entry.1 == tid)).lookup tid
          = none := lookup_eraseP_of_nodup terminals tid hnd
      rw [get_terminal, hparam]
      dsimp only
      rw [hrem]

/-- C9 witness: on a map holding the single live terminal `terminal-1`,
releasing it twice succeeds both times and the id is afterwards not found. -/
theorem C9_witness :
    ∃ remaining,
      release [("terminal-1", Except.ok ())]
          (Json.obj [("terminalId", Json.str "terminal-1")]) =
        .ok (Json.obj [], remaining) ∧
      release remaining (Json.obj [("terminalId", Json.str "terminal-1")]) =
        .ok (Json.obj [], remaining) ∧
      get_terminal remaining (Json.obj [("terminalId", Json.str "terminal-1")]) =
        .error ("terminal not found: " ++ "terminal-1") :=
  (C9_release_unknown_id [("terminal-1", Except.ok ())] "terminal-1"
      (Json.obj [("terminalId", Json.str "terminal-1")]) rfl
      (by decide)).2 rfl

/-- C5: `fs/read_text_file` returns the whole file unchanged when both
`line` and `limit` are absent; otherwise it returns the file's lines in the
range `[line-1, line-1+limit)` — `line` 1-based with saturating underflow,
`limit` defaulting to `usize::MAX` — rejoined with `"\n"` and without a
trailing newline; in particular `{line:2, limit:2}` over `"a\nb\nc\nd\ne"`
yields `"b\nc"`. -/
theorem C5_read_text_file (content : String) (line limit : Option Nat) :
    (line = none → limit = none →
        read_text_file_content content line limit = content) ∧
    (line.isSome = true ∨ limit.isSome = true →
        read_text_file_content content line limit =
          String.mk (List.intercalate ['\n']
            (((rustLines content.toList).take
                ((line.getD 1 - 1) + limit.getD USIZE_MAX)).drop
              (line.getD 1 - 1)))) ∧
    read_text_file_content "a\nb\nc\nd\ne" (some 2) (some 2) = "b\nc" := by
  refine ⟨?_, ?_, by decide⟩
  · intro h1 h2
    subst h1
    subst h2
    rfl
  · intro h
    have hne : (line.isNone && limit.isNone) = false := by
      rcases h with h | h <;> rcases line with _ | a <;> rcases limit with _ | b <;>
        simp_all
    rw [read_text_file_content, if_neg (by simp [hne])]
    rw [← List.take_drop]

/-- C5 witness: the range formulation applied at `{line:2, limit:2}` over
`"a\nb\nc\nd\ne"`. -/
theorem C5_witness :
    read_text_file_content "a\nb\nc\nd\ne" (some 2) (some 2) =
      String.mk (List.intercalate ['\n']
        (((rustLines "a\nb\nc\nd\ne".toList).take
            (((some 2).getD 1 - 1) + (some 2).getD USIZE_MAX)).drop
          ((some 2).getD 1 - 1))) :=
  (C5_read_text_file "a\nb\nc\nd\ne" (some 2) (some 2)).2.1 (Or.inl rfl)

/-! ### Request-id trace lemmas -/

lemma run_client_issued : ∀ (ops : List ClientOp) (s : ClientState),
    s.next_request_id + req_count ops ≤ U64_MOD →
    s.next_request_id < U64_MOD →
    (run_client s ops).2 = List.range' s.next_request_id (req_count ops) := by
  intro ops
  induction ops with
  | nil => intro s _ _; simp [run_client, req_count]
  | cons op rest ih =>
    intro s hle hlt
    cases op with
    | request =>
      have hcount : req_count (.request :: rest) = req_count rest + 1 := by
        simp [req_count]
      rw [hcount] at hle
      have hid : (request_step s).1 = s.next_request_id := by
        rw [request_step]
        exact Nat.mod_eq_of_lt hlt
      rw [run_client]
      dsimp only
      rw [hcount, List.range'_succ, hid]
      congr 1
      by_cases htop : s.next_request_id + 1 < U64_MOD
      · have hnext : (request_step s).2.next_request_id = s.next_request_id + 1 := by
          rw [request_step]
          exact Nat.mod_eq_of_lt htop
        have hres := ih (request_step s).2
        rw [hnext] at hres
        exact hres (by omega) htop
      · have hzero : req_count rest = 0 := by omega
        have hmod : s.next_request_id + 1 = U64_MOD := by omega
        have hnext : (request_step s).2.next_request_id = 0 := by
          rw [request_step]
          dsimp only
          rw [hmod, Nat.mod_self]
        have hres := ih (request_step s).2
        rw [hnext, hzero] at hres
        rw [hzero, List.range'_zero]
        exact hres (by omega) (by omega)
    | response id =>
      have hcount : req_count (.response id :: rest) = req_count rest := by
        simp [req_count]
      rw [run_client, hcount]
      exact ih _ (by rw [response_step]; dsimp only; omega)
        (by rw [response_step]; dsimp only; omega)

lemma run_client_pending_nodup : ∀ (ops : List ClientOp) (s : ClientState),
    s.pending.Nodup → (run_client s ops).1.pending.Nodup := by
  intro ops
  induction ops with
  | nil => intro s h; exact h
  | cons op rest ih =>
    intro s h
    cases op with
    | request =>
      rw [run_client]
      apply ih
      rw [request_step]
      dsimp only
      split
      · exact h
      · exact List.Nodup.cons (by assumption) h
    | response id =>
      rw [run_client]
      apply ih
      exact h.erase id

lemma run_client_pending_source : ∀ (ops : List ClientOp) (s : ClientState)
    (id : Nat), id ∈ (run_client s ops).1.pending →
    id ∈ s.pending ∨ id ∈ (run_client s ops).2 := by
  intro ops
  induction ops with
  | nil => intro s id h; exact Or.inl h
  | cons op rest ih =>
    intro s id h
    cases op with
    | request =>
      rw [run_client] at h ⊢
      dsimp only at h ⊢
      rcases ih _ _ h with h2 | h2
      · rw [request_step] at h2
        dsimp only at h2
        by_cases hmem : (request_step s).1 = id
        · right
          rw [← hmem]
          exact List.mem_cons_self _ _
        · left
          revert h2
          split
          · exact fun h2 => h2
          · intro h2
            rcases List.mem_cons.mp h2 with h3 | h3
            · rw [request_step] at hmem
              exact absurd h3.symm hmem
            · exact h3
      · right
        exact List.mem_cons_of_mem _ h2
    | response id2 =>
      rw [run_client] at h ⊢
      rcases ih _ _ h with h2 | h2
      · exact Or.inl (List.erase_subset _ _ h2)
      · exact Or.inr h2

lemma run_client_pending_persists : ∀ (ops : List ClientOp) (s : ClientState)
    (id : Nat), id ∈ s.pending → ClientOp.response id ∉ ops →
    id ∈ (run_client s ops).1.pending := by
  intro ops
  induction ops with
  | nil => intro s id h _; exact h
  | cons op rest ih =>
    intro s id h hno
    cases op with
    | request =>
      rw [run_client]
      apply ih
      · rw [request_step]
        dsimp only
        split
        · exact h
        · exact List.mem_cons_of_mem _ h
      · exact fun hmem => hno (List.mem_cons_of_mem _ hmem)
    | response id2 =>
      have hne : id ≠ id2 := by
        intro hh
        exact hno (by simp [hh])
      rw [run_client]
      apply ih
      · exact (List.mem_erase_of_ne hne).mpr h
      · exact fun hmem => hno (List.mem_cons_of_mem _ hmem)

lemma run_client_append (ops1 ops2 : List ClientOp) : ∀ (s : ClientState),
    run_client s (ops1 ++ ops2) =
      ((run_client (run_client s ops1).1 ops2).1,
        (run_client s ops1).2 ++ (run_client (run_client s ops1).1 ops2).2) := by
  induction ops1 with
  | nil => intro s; simp [run_client]
  | cons op rest ih =>
    intro s
    cases op with
    | request =>
      rw [List.cons_append, run_client, run_client, ih]
      simp
    | response id =>
      rw [List.cons_append, run_client, run_client, ih]

lemma run_client_next : ∀ (ops : List ClientOp) (s : ClientState),
    s.next_request_id < U64_MOD →
    s.next_request_id + req_count ops ≤ U64_MOD →
    (run_client s ops).1.next_request_id =
      (s.next_request_id + req_count ops) % U64_MOD := by
  intro ops
  induction ops with
  | nil =>
    intro s hlt _
    rw [run_client]
    have : req_count [] = 0 := rfl
    rw [this, Nat.add_zero, Nat.mod_eq_of_lt hlt]
  | cons op rest ih =>
    intro s hlt h
    cases op with
    | request =>
      have hcount : req_count (.request :: rest) = req_count rest + 1 := by
        simp [req_count]
      rw [hcount] at h
      rw [run_client, hcount]
      dsimp only
      by_cases htop : s.next_request_id + 1 < U64_MOD
      · have hnext : (request_step s).2.next_request_id = s.next_request_id + 1 := by
          rw [request_step]
          exact Nat.mod_eq_of_lt htop
        have hres := ih (request_step s).2
        rw [hnext] at hres
        rw [hres htop (by omega)]
        congr 1
        omega
      · have hzero : req_count rest = 0 := by omega
        have hmod : s.next_request_id + 1 = U64_MOD := by omega
        have hnext : (request_step s).2.next_request_id = 0 := by
          rw [request_step]
          dsimp only
          rw [hmod, Nat.mod_self]
        have hres := ih (request_step s).2
        rw [hnext, hzero] at hres
        rw [hres (by omega) (by omega)]
        rw [hzero]
        have hgoal : s.next_request_id + (0 + 1) = U64_MOD := by omega
        rw [hgoal, Nat.mod_self]
        simp
    | response id =>
      have hcount : req_count (.response id :: rest) = req_count rest := by
        simp [req_count]
      rw [run_client, hcount]
      exact ih _ (by rw [response_step]; dsimp only; omega)
        (by rw [response_step]; dsimp only; omega)

/-- C8: starting from a fresh client, as long as fewer than `2^64` requests
have been issued (`u64` cannot wrap), the ids assigned to successive
outbound requests form the strictly increasing sequence `1, 2, 3, …` with
no id reused; the pending table holds at most one entry per id; every entry
of the final pending table was issued by some request; and an issued id
stays in the pending table until a response for it arrives. -/
theorem C8_request_ids (ops : List ClientOp)
    (h : req_count ops + 1 ≤ U64_MOD) :
    (run_client initial_client ops).2 = List.range' 1 (req_count ops) ∧
    List.Chain' (· < ·) (run_client initial_client ops).2 ∧
    (run_client initial_client ops).1.pending.Nodup ∧
    (∀ id ∈ (run_client initial_client ops).1.pending,
        id ∈ (run_client initial_client ops).2) ∧
    (∀ pre post, ops = pre ++ ClientOp.request :: post →
        ClientOp.response (req_count pre + 1) ∉ post →
        (req_count pre + 1) ∈ (run_client initial_client ops).1.pending) := by
  have hinit1 : initial_client.next_request_id = 1 := rfl
  have hmodpos : 1 < U64_MOD := by norm_num [U64_MOD]
  have hbound : initial_client.next_request_id + req_count ops ≤ U64_MOD := by
    rw [hinit1]
    omega
  have hissued := run_client_issued ops initial_client hbound
    (by rw [hinit1]; omega)
  rw [hinit1] at hissued
  refine ⟨hissued, ?_, ?_, ?_, ?_⟩
  · rw [hissued]
    have hpw : List.Pairwise (· < ·) (List.range' 1 (req_count ops)) := by
      apply List.pairwise_lt_range'
      omega
    exact hpw.chain'
  · exact run_client_pending_nodup ops initial_client List.nodup_nil
  · intro id hid
    rcases run_client_pending_source ops initial_client id hid with h2 | h2
    · cases h2
    · exact h2
  · intro pre post hsplit hno
    subst hsplit
    have hcle : req_count pre + 1 ≤ req_count (pre ++ ClientOp.request :: post) := by
      rw [req_count, req_count, List.countP_append, List.countP_cons]
      simp
    have hprebound : initial_client.next_request_id + req_count pre ≤ U64_MOD := by
      rw [hinit1]
      omega
    have hnext := run_client_next pre initial_client (by rw [hinit1]; omega) hprebound
    rw [hinit1] at hnext
    have hlt : 1 + req_count pre < U64_MOD := by omega
    have hnext2 : (run_client initial_client pre).1.next_request_id =
        1 + req_count pre := by
      rw [hnext, Nat.mod_eq_of_lt hlt]
    rw [run_client_append]
    dsimp only
    rw [run_client]
    dsimp only
    apply run_client_pending_persists
    · rw [request_step]
      dsimp only
      rw [hnext2, Nat.mod_eq_of_lt hlt]
      have heq : 1 + req_count pre = req_count pre + 1 := by omega
      rw [heq]
      split
      · assumption
      · exact List.mem_cons_self _ _
    · exact hno

/-- C8 witness: three requests interleaved with a response are assigned the
ids `1, 2, 3`. -/
theorem C8_witness :
    (run_client initial_client
        [ClientOp.request, ClientOp.request, ClientOp.response 1,
          ClientOp.request]).2 =
      List.range' 1 (req_count
        [ClientOp.request, ClientOp.request, ClientOp.response 1,
          ClientOp.request]) :=
  (C8_request_ids
      [ClientOp.request, ClientOp.request, ClientOp.response 1,
        ClientOp.request] (by norm_num [req_count, U64_MOD])).1

/-! ### UTF-8 structure lemmas for the output pump -/

lemma not_cont_at_cons (x : Nat) (l : List Nat) (j : Nat) :
    not_cont_at (x :: l) (j + 1) = not_cont_at l j := by
  rw [not_cont_at, not_cont_at, List.drop_succ_cons]
  cases h : l.drop j with
  | nil =>
    simp only [List.length_cons]
    by_cases hjl : j = l.length
    · subst hjl
      simp
    · have hf1 : (j == l.length) = false := by simp [hjl]
      have hf2 : (j + 1 == l.length + 1) = false := by
        rw [beq_eq_false_iff_ne]
        omega
      rw [hf1, hf2]
  | cons b t => rfl

lemma cont_byte_of_range (lo hi b2 : Nat) (hlo : 0x80 ≤ lo) (hhi : hi ≤ 0xC0)
    (h : (lo ≤ b2 && b2 < hi) = true) : cont_byte b2 = true := by
  simp only [Bool.and_eq_true, decide_eq_true_eq] at h
  rw [cont_byte]
  simp only [Bool.and_eq_true, decide_eq_true_eq]
  omega

lemma utf8Valid_append_aux : ∀ (n : Nat) (a : List Nat), a.length ≤ n →
    utf8Valid a = true → ∀ (b : List Nat), utf8Valid b = true →
    utf8Valid (a ++ b) = true := by
  intro n
  induction n with
  | zero =>
    intro a ha hv b hb
    have : a = [] := List.eq_nil_of_length_eq_zero (by omega)
    subst this
    simpa using hb
  | succ n ih =>
    intro a ha hv b hb
    rcases a with _ | ⟨b1, rest⟩
    · simpa using hb
    · rw [List.length_cons] at ha
      by_cases h80 : b1 < 0x80
      · rw [utf8Valid, if_pos h80] at hv
        rw [List.cons_append, utf8Valid, if_pos h80]
        exact ih rest (by omega) hv b hb
      · by_cases hc2 : b1 < 0xC2
        · rw [utf8Valid, if_neg h80, if_pos hc2] at hv
          cases hv
        · by_cases he0 : b1 < 0xE0
          · rw [utf8Valid, if_neg h80, if_neg hc2, if_pos he0] at hv
            rcases rest with _ | ⟨b2, rest2⟩
            · rw [utf8Cont1] at hv
              cases hv
            · rw [utf8Cont1, Bool.and_eq_true] at hv
              rw [List.cons_append, utf8Valid, if_neg h80, if_neg hc2,
                if_pos he0, List.cons_append, utf8Cont1, Bool.and_eq_true]
              refine ⟨hv.1, ih rest2 (by simp at ha; omega) hv.2 b hb⟩
          · by_cases hf0 : b1 < 0xF0
            · rw [utf8Valid, if_neg h80, if_neg hc2, if_neg he0, if_pos hf0] at hv
              rcases rest with _ | ⟨b2, _ | ⟨b3, rest3⟩⟩
              · rw [utf8Cont2] at hv
                cases hv
              · rw [utf8Cont2] at hv
                cases hv
              · rw [utf8Cont2, Bool.and_eq_true, Bool.and_eq_true] at hv
                rw [List.cons_append, utf8Valid, if_neg h80, if_neg hc2,
                  if_neg he0, if_pos hf0, List.cons_append, List.cons_append,
                  utf8Cont2, Bool.and_eq_true, Bool.and_eq_true]
                refine ⟨⟨hv.1.1, hv.1.2⟩, ih rest3 (by simp at ha; omega) hv.2 b hb⟩
            · by_cases hf5 : b1 < 0xF5
              · rw [utf8Valid, if_neg h80, if_neg hc2, if_neg he0, if_neg hf0,
                  if_pos hf5] at hv
                rcases rest with _ | ⟨b2, _ | ⟨b3, _ | ⟨b4, rest4⟩⟩⟩
                · rw [utf8Cont3] at hv
                  cases hv
                · rw [utf8Cont3] at hv
                  cases hv
                · rw [utf8Cont3] at hv
                  cases hv
                · rw [utf8Cont3, Bool.and_eq_true, Bool.and_eq_true,
                    Bool.and_eq_true] at hv
                  rw [List.cons_append, utf8Valid, if_neg h80, if_neg hc2,
                    if_neg he0, if_neg hf0, if_pos hf5, List.cons_append,
                    List.cons_append, List.cons_append, utf8Cont3,
                    Bool.and_eq_true, Bool.and_eq_true, Bool.and_eq_true]
                  exact ⟨⟨⟨hv.1.1.1, hv.1.1.2⟩, hv.1.2⟩,
                    ih rest4 (by simp at ha; omega) hv.2 b hb⟩
              · rw [utf8Valid, if_neg h80, if_neg hc2, if_neg he0, if_neg hf0,
                  if_neg hf5] at hv
                cases hv

lemma utf8Valid_append {a b : List Nat} (ha : utf8Valid a = true)
    (hb : utf8Valid b = true) : utf8Valid (a ++ b) = true :=
  utf8Valid_append_aux a.length a (Nat.le_refl _) ha b hb

lemma not_cont_at_zero_cons (b : Nat) (l : List Nat) :
    not_cont_at (b :: l) 0 = !cont_byte b := by
  rw [not_cont_at, List.drop_zero]

lemma utf8Valid_drop_aux : ∀ (n : Nat) (l : List Nat), l.length ≤ n →
    utf8Valid l = true → ∀ (j : Nat), not_cont_at l j = true →
    utf8Valid (l.drop j) = true := by
  intro n
  induction n with
  | zero =>
    intro l hl hv j _
    have : l = [] := List.eq_nil_of_length_eq_zero (by omega)
    subst this
    simpa using hv
  | succ n ih =>
    intro l hl hv j hnc
    rcases l with _ | ⟨b1, rest⟩
    · simpa using hv
    · rw [List.length_cons] at hl
      rcases j with _ | j
      · rwa [List.drop_zero]
      · rw [List.drop_succ_cons]
        rw [not_cont_at_cons] at hnc
        by_cases h80 : b1 < 0x80
        · rw [utf8Valid, if_pos h80] at hv
          exact ih rest (by omega) hv j hnc
        · by_cases hc2 : b1 < 0xC2
          · rw [utf8Valid, if_neg h80, if_pos hc2] at hv
            cases hv
          · by_cases he0 : b1 < 0xE0
            · rw [utf8Valid, if_neg h80, if_neg hc2, if_pos he0] at hv
              rcases rest with _ | ⟨b2, rest2⟩
              · rw [utf8Cont1] at hv
                cases hv
              · rw [utf8Cont1, Bool.and_eq_true] at hv
                rcases j with _ | j
                · rw [not_cont_at_zero_cons, hv.1] at hnc
                  cases hnc
                · rw [List.drop_succ_cons]
                  rw [not_cont_at_cons] at hnc
                  exact ih rest2 (by simp at hl; omega) hv.2 j hnc
            · by_cases hf0 : b1 < 0xF0
              · rw [utf8Valid, if_neg h80, if_neg hc2, if_neg he0,
                  if_pos hf0] at hv
                rcases rest with _ | ⟨b2, _ | ⟨b3, rest3⟩⟩
                · rw [utf8Cont2] at hv
                  cases hv
                · rw [utf8Cont2] at hv
                  cases hv
                · rw [utf8Cont2, Bool.and_eq_true, Bool.and_eq_true] at hv
                  have hb2 : cont_byte b2 = true := by
                    refine cont_byte_of_range _ _ _ ?_ ?_ hv.1.1 <;>
                      split <;> omega
                  rcases j with _ | ⟨_ | j⟩
                  · rw [not_cont_at_zero_cons, hb2] at hnc
                    cases hnc
                  · rw [not_cont_at_cons, not_cont_at_zero_cons, hv.1.2] at hnc
                    cases hnc
                  · rw [List.drop_succ_cons, List.drop_succ_cons]
                    rw [not_cont_at_cons, not_cont_at_cons] at hnc
                    exact ih rest3 (by simp at hl; omega) hv.2 j hnc
              · by_cases hf5 : b1 < 0xF5
                · rw [utf8Valid, if_neg h80, if_neg hc2, if_neg he0, if_neg hf0,
                    if_pos hf5] at hv
                  rcases rest with _ | ⟨b2, _ | ⟨b3, _ | ⟨b4, rest4⟩⟩⟩
                  · rw [utf8Cont3] at hv
                    cases hv
                  · rw [utf8Cont3] at hv
                    cases hv
                  · rw [utf8Cont3] at hv
                    cases hv
                  · rw [utf8Cont3, Bool.and_eq_true, Bool.and_eq_true,
                      Bool.and_eq_true] at hv
                    have hb2 : cont_byte b2 = true := by
                      refine cont_byte_of_range _ _ _ ?_ ?_ hv.1.1.1 <;>
                        split <;> omega
                    rcases j with _ | ⟨_ | ⟨_ | j⟩⟩
                    · rw [not_cont_at_zero_cons, hb2] at hnc
                      cases hnc
                    · rw [not_cont_at_cons, not_cont_at_zero_cons,
                        hv.1.1.2] at hnc
                      cases hnc
                    · rw [not_cont_at_cons, not_cont_at_cons,
                        not_cont_at_zero_cons, hv.1.2] at hnc
                      cases hnc
                    · rw [List.drop_succ_cons, List.drop_succ_cons,
                        List.drop_succ_cons]
                      rw [not_cont_at_cons, not_cont_at_cons,
                        not_cont_at_cons] at hnc
                      exact ih rest4 (by simp at hl; omega) hv.2 j hnc
                · rw [utf8Valid, if_neg h80, if_neg hc2, if_neg he0, if_neg hf0,
                    if_neg hf5] at hv
                  cases hv

lemma utf8Valid_drop_boundary {l : List Nat} (hv : utf8Valid l = true)
    {j : Nat} (hb : is_char_boundary l j = true) :
    utf8Valid (l.drop j) = true := by
  rw [is_char_boundary] at hb
  rcases Nat.eq_zero_or_pos j with hj | hj
  · subst hj
    rwa [List.drop_zero]
  · rw [if_neg (by omega)] at hb
    exact utf8Valid_drop_aux l.length l (Nat.le_refl _) hv j hb

lemma is_char_boundary_length (l : List Nat) :
    is_char_boundary l l.length = true := by
  rw [is_char_boundary]
  split
  · rfl
  · rw [not_cont_at, List.drop_length]
    simp

lemma drain_to_boundary_spec (l : List Nat) : ∀ (n i : Nat),
    l.length - i ≤ n → i ≤ l.length →
    i ≤ drain_to_boundary l i ∧ drain_to_boundary l i ≤ l.length ∧
      is_char_boundary l (drain_to_boundary l i) = true := by
  intro n
  induction n with
  | zero =>
    intro i hn hi
    have hieq : i = l.length := by omega
    rw [drain_to_boundary, dif_neg (by omega)]
    refine ⟨Nat.le_refl i, Nat.le_of_eq hieq, ?_⟩
    rw [hieq]
    exact is_char_boundary_length l
  | succ n ih =>
    intro i hn hi
    rw [drain_to_boundary]
    split
    · rename_i h
      have hrec := ih (i + 1) (by omega) (by omega)
      exact ⟨by omega, hrec.2.1, hrec.2.2⟩
    · rename_i h
      refine ⟨Nat.le_refl i, hi, ?_⟩
      by_cases hlen : i < l.length
      · cases hbb : is_char_boundary l i
        · exact absurd ⟨hlen, hbb⟩ h
        · rfl
      · have hieq : i = l.length := by omega
        rw [hieq]
        exact is_char_boundary_length l

/-! ### Pump-step lemmas -/

lemma pump_step_le (output_limit : Nat) (s : PumpState) (c : List Nat) :
    (pump_step output_limit s c).output.length ≤ output_limit := by
  rw [pump_step]
  dsimp only
  split
  · rename_i h
    obtain ⟨h1, h2, _⟩ := drain_to_boundary_spec (s.output ++ c)
      (s.output ++ c).length ((s.output ++ c).length - output_limit)
      (by omega) (by omega)
    dsimp only
    rw [List.length_drop]
    omega
  · rename_i h
    dsimp only
    omega

lemma pump_step_valid (output_limit : Nat) (s : PumpState) (c : List Nat)
    (hs : utf8Valid s.output = true) (hc : utf8Valid c = true) :
    utf8Valid (pump_step output_limit s c).output = true := by
  rw [pump_step]
  dsimp only
  split
  · rename_i h
    obtain ⟨h1, h2, h3⟩ := drain_to_boundary_spec (s.output ++ c)
      (s.output ++ c).length ((s.output ++ c).length - output_limit)
      (by omega) (by omega)
    exact utf8Valid_drop_boundary (utf8Valid_append hs hc) h3
  · exact utf8Valid_append hs hc

lemma pump_step_mono (output_limit : Nat) (s : PumpState) (c : List Nat)
    (h : s.truncated = true) :
    (pump_step output_limit s c).truncated = true := by
  rw [pump_step]
  dsimp only
  split
  · rfl
  · exact h

lemma pump_step_nodrop (output_limit : Nat) (s : PumpState) (c : List Nat)
    (h : (pump_step output_limit s c).truncated = false) :
    (pump_step output_limit s c).output = s.output ++ c ∧
      s.truncated = false := by
  rw [pump_step] at h ⊢
  dsimp only at h ⊢
  by_cases hover : output_limit < (s.output ++ c).length
  · rw [if_pos hover] at h
    cases h
  · rw [if_neg hover] at h ⊢
    exact ⟨rfl, h⟩

lemma pump_step_over (output_limit : Nat) (s : PumpState) (c : List Nat)
    (hover : output_limit < (s.output ++ c).length) :
    (pump_step output_limit s c).truncated = true ∧
      (pump_step output_limit s c).output.length <
        (s.output ++ c).length := by
  rw [pump_step]
  dsimp only
  rw [if_pos hover]
  obtain ⟨h1, h2, _⟩ := drain_to_boundary_spec (s.output ++ c)
    (s.output ++ c).length ((s.output ++ c).length - output_limit)
    (by omega) (by omega)
  refine ⟨rfl, ?_⟩
  dsimp only
  rw [List.length_drop]
  omega

lemma pump_run_append (output_limit : Nat) (chs : List (List Nat))
    (c : List Nat) :
    pump_run output_limit (chs ++ [c]) =
      pump_step output_limit (pump_run output_limit chs) c := by
  rw [pump_run, pump_run, List.foldl_append, List.foldl_cons, List.foldl_nil]

lemma pump_foldl_mono (output_limit : Nat) (suf : List (List Nat)) :
    ∀ (s : PumpState), s.truncated = true →
      (List.foldl (pump_step output_limit) s suf).truncated = true := by
  induction suf with
  | nil => intro s h; exact h
  | cons c rest ih =>
    intro s h
    rw [List.foldl_cons]
    exact ih _ (pump_step_mono output_limit s c h)

lemma pump_foldl_nodrop (output_limit : Nat) (suf : List (List Nat)) :
    ∀ (s : PumpState),
      (List.foldl (pump_step output_limit) s suf).truncated = false →
      (List.foldl (pump_step output_limit) s suf).output =
          s.output ++ suf.flatten ∧ s.truncated = false := by
  induction suf with
  | nil => intro s h; exact ⟨by simp, h⟩
  | cons c rest ih =>
    intro s h
    rw [List.foldl_cons] at h ⊢
    obtain ⟨hout, hstep⟩ := ih (pump_step output_limit s c) h
    obtain ⟨hstep_out, hs⟩ := pump_step_nodrop output_limit s c hstep
    refine ⟨?_, hs⟩
    rw [hout, hstep_out, List.flatten_cons, List.append_assoc]

lemma pump_foldl_valid (output_limit : Nat) (chs : List (List Nat)) :
    ∀ (s : PumpState), utf8Valid s.output = true →
      (∀ c ∈ chs, utf8Valid c = true) →
      utf8Valid (List.foldl (pump_step output_limit) s chs).output = true := by
  induction chs with
  | nil => intro s hs _; exact hs
  | cons c rest ih =>
    intro s hs hv
    rw [List.foldl_cons]
    exact ih _ (pump_step_valid output_limit s c hs (hv c (by simp)))
      (fun c2 hc2 => hv c2 (by simp [hc2]))

/-- C1: folding the terminal output pump over any sequence of UTF-8 chunks
read from the child (as `String::from_utf8_lossy` produces): after every
step the shared buffer holds at most `output_limit` bytes and is valid
UTF-8; `truncated` latches — once true it stays true; `truncated = false`
means no byte was ever dropped (the buffer is the concatenation of all
chunks); and whenever appending a chunk would exceed the cap, that step
latches `truncated` and drops at least one of the oldest bytes (at a
code-point boundary, by `pump_step_valid`). -/
theorem C1_output_buffer_invariants (output_limit : Nat)
    (chunks : List (List Nat))
    (hvalid : ∀ c ∈ chunks, utf8Valid c = true) :
    (∀ pre, pre <+: chunks →
        (pump_run output_limit pre).output.length ≤ output_limit ∧
        utf8Valid (pump_run output_limit pre).output = true) ∧
    (∀ pre suf, chunks = pre ++ suf →
        (pump_run output_limit pre).truncated = true →
        (pump_run output_limit chunks).truncated = true) ∧
    ((pump_run output_limit chunks).truncated = false →
        (pump_run output_limit chunks).output = chunks.flatten) ∧
    (∀ pre c suf, chunks = pre ++ c :: suf →
        output_limit < ((pump_run output_limit pre).output ++ c).length →
        (pump_run output_limit (pre ++ [c])).truncated = true ∧
        (pump_run output_limit (pre ++ [c])).output.length <
          ((pump_run output_limit pre).output ++ c).length) := by
  refine ⟨?_, ?_, ?_, ?_⟩
  · intro pre hpre
    have hv : ∀ c ∈ pre, utf8Valid c = true := fun c hc =>
      hvalid c (hpre.subset hc)
    constructor
    · rcases List.eq_nil_or_concat pre with h | ⟨l, e, h⟩
      · subst h
        simp [pump_run, initial_pump]
      · subst h
        rw [List.concat_eq_append, pump_run_append]
        exact pump_step_le output_limit _ e
    · rw [pump_run]
      exact pump_foldl_valid output_limit pre initial_pump rfl hv
  · intro pre suf heq htr
    subst heq
    rw [pump_run, List.foldl_append]
    rw [pump_run] at htr
    exact pump_foldl_mono output_limit suf _ htr
  · intro h
    rw [pump_run] at h ⊢
    have hres := pump_foldl_nodrop output_limit chunks initial_pump h
    rw [hres.1]
    simp [initial_pump]
  · intro pre c suf _ hover
    rw [pump_run_append]
    exact pump_step_over output_limit _ c hover

/-- C1 witness: with `output_limit = 4` and the chunks `"abc"` then `"é"`
(bytes `C3 A9`), the final buffer is the 4 bytes `"bcé"`: within the limit
and valid UTF-8. -/
theorem C1_witness :
    (pump_run 4 [[0x61, 0x62, 0x63], [0xC3, 0xA9]]).output.length ≤ 4 ∧
    utf8Valid (pump_run 4 [[0x61, 0x62, 0x63], [0xC3, 0xA9]]).output = true :=
  (C1_output_buffer_invariants 4 [[0x61, 0x62, 0x63], [0xC3, 0xA9]]
    (by decide)).1 [[0x61, 0x62, 0x63], [0xC3, 0xA9]] (List.prefix_refl _)

end Acp
